import Mathlib

/-!
Verification of the markdown-to-Google-Doc converter
(`src/markdown_to_gdoc.py`).

The pure core of the repository is shallowly embedded here:

* `parse_markdown` — the line classifier (source lines 27–80);
* `compileBlocks` / `markdown_to_google_doc_requests` — the pure part of
  `markdown_to_google_doc` (source lines 149–223): span computation, the
  assembled `full_text`, and the ordered list of batch-update requests.

Python strings are modelled as `List Char` (a Python `str` is a sequence of
code points; `len` is `List.length`).  The whitespace sets used by
`str.strip` and the regex class `\s` are modelled by their ASCII portion
`[ \t\n\r\x0b\x0c]`, and `\w` by `[A-Za-z0-9_]`; the line boundaries of
`str.splitlines` are modelled by Python's documented boundary set.
-/

/-- Whitespace characters: the ASCII whitespace set recognised by Python's
`str.strip()` and by the regex class `\s`. -/
def pyIsSpace (c : Char) : Bool :=
  c == ' ' || c == '\t' || c == '\n' || c == '\r' || c == '\x0b' || c == '\x0c'

/-- Line boundaries recognised by Python's `str.splitlines` (in addition,
`"\r\n"` counts as a single boundary). -/
def isLineBreak (c : Char) : Bool :=
  c == '\n' || c == '\r' || c == '\x0b' || c == '\x0c' ||
  c == '\x1c' || c == '\x1d' || c == '\x1e' ||
  c == '\u0085' || c == ' ' || c == ' '

/-- Word characters of the regex class `\w` (ASCII portion): letters, digits,
underscore. -/
def isWordChar (c : Char) : Bool :=
  c.isAlpha || c.isDigit || c == '_'

/-- Python `s.strip()`: remove leading and trailing whitespace. -/
def pyStrip (l : List Char) : List Char :=
  ((l.dropWhile pyIsSpace).reverse.dropWhile pyIsSpace).reverse

/-- Python `s.rstrip("\n")`: remove trailing newline characters. -/
def rstripNl (l : List Char) : List Char :=
  (l.reverse.dropWhile (fun c => c == '\n')).reverse

/-- Python `s.startswith(p)` for `List Char`. -/
def startswith : List Char → List Char → Bool
  | _, [] => true
  | [], _ :: _ => false
  | c :: cs, p :: ps => c == p && startswith cs ps

/-- Worker for `splitlines`: accumulate the current (reversed) line in `acc`.
The flag `skipNl` is set right after a `'\r'` boundary so that the `'\n'` of a
`"\r\n"` pair is consumed as part of the same boundary. -/
def splitlinesGo : List Char → List Char → Bool → List (List Char)
  | [], acc, _ => [acc.reverse]
  | c :: rest, acc, skipNl =>
      if skipNl && c == '\n' then
        if rest = [] then [] else splitlinesGo rest [] false
      else if isLineBreak c then
        acc.reverse :: (if rest = [] then [] else splitlinesGo rest [] (c == '\r'))
      else
        splitlinesGo rest (c :: acc) false

/-- Python `s.splitlines()`: split at line boundaries (`"\r\n"` counting as a
single boundary), no trailing empty line for a trailing terminator, and
`"".splitlines() == []`. -/
def splitlines (cs : List Char) : List (List Char) :=
  if cs = [] then [] else splitlinesGo cs [] false

/-- Block: one parsed logical line (the `Block` dataclass, source lines 19–24).
`kind` is one of `"h1" "h2" "h3" "bullet" "checkbox" "footer" "p" "blank"`. -/
structure Block where
  kind : String
  text : List Char
  level : Nat := 0
  checked : Bool := false
deriving DecidableEq, Repr

/-- Match of the checkbox pattern `^\s*-\s\[( |x|X)\]\s+` (source line 54).
Greedy `\s*` never needs backtracking here because `-` is not whitespace. -/
def checkboxMatch (raw : List Char) : Bool :=
  match raw.dropWhile pyIsSpace with
  | '-' :: c :: '[' :: m :: ']' :: d :: _ =>
    pyIsSpace c && (m == ' ' || m == 'x' || m == 'X') && pyIsSpace d
  | _ => false

/-- Match of the checked-checkbox pattern `^\s*-\s\[(x|X)\]\s+` (source line 55). -/
def checkedMatch (raw : List Char) : Bool :=
  match raw.dropWhile pyIsSpace with
  | '-' :: c :: '[' :: m :: ']' :: d :: _ =>
    pyIsSpace c && (m == 'x' || m == 'X') && pyIsSpace d
  | _ => false

/-- Result of `re.sub(r"^\s*-\s\[( |x|X)\]\s+", "", raw)` (source line 56):
when the anchored pattern matches, remove the leading whitespace, the
`- [m]` marker and the maximal whitespace run after it. -/
def checkboxSub (raw : List Char) : List Char :=
  if checkboxMatch raw then
    match raw.dropWhile pyIsSpace with
    | _ :: _ :: _ :: _ :: _ :: rest => rest.dropWhile pyIsSpace
    | l => l
  else raw

/-- Match of the bullet pattern `^\s*[-*]\s+` (source line 62). -/
def bulletMatch (raw : List Char) : Bool :=
  match raw.dropWhile pyIsSpace with
  | b :: c :: _ => (b == '-' || b == '*') && pyIsSpace c
  | _ => false

/-- Result of `re.sub(r"^\s*[-*]\s+", "", raw)` (source line 63). -/
def bulletSub (raw : List Char) : List Char :=
  if bulletMatch raw then
    match raw.dropWhile pyIsSpace with
    | _ :: rest => rest.dropWhile pyIsSpace
    | l => l
  else raw

/-- Bullet nesting level (source lines 57 and 64):
`(len(raw) - len(raw.lstrip(" "))) // 2`. -/
def bulletLevel (raw : List Char) : Nat :=
  (raw.length - (raw.dropWhile (fun c => c == ' ')).length) / 2

/-- Classify one input line (the body of the loop in `parse_markdown`,
source lines 34–78).  The source first computes `raw = line.rstrip("\n")`. -/
def classifyLine (line : List Char) : Block :=
  let raw := rstripNl line
  if (pyStrip raw).isEmpty then { kind := "blank", text := [] }
  else if startswith raw ['#', ' '] then { kind := "h1", text := pyStrip (raw.drop 2) }
  else if startswith raw ['#', '#', ' '] then { kind := "h2", text := pyStrip (raw.drop 3) }
  else if startswith raw ['#', '#', '#', ' '] then { kind := "h3", text := pyStrip (raw.drop 4) }
  else if checkboxMatch raw then
    { kind := "checkbox", text := pyStrip (checkboxSub raw),
      level := bulletLevel raw, checked := checkedMatch raw }
  else if bulletMatch raw then
    { kind := "bullet", text := pyStrip (bulletSub raw), level := bulletLevel raw }
  else if startswith raw ['M','e','e','t','i','n','g',' ','r','e','c','o','r','d','e','d',' ','b','y',':']
       || startswith raw ['D','u','r','a','t','i','o','n',':'] then
    { kind := "footer", text := pyStrip raw }
  else if pyStrip raw == ['-', '-', '-'] then { kind := "blank", text := [] }
  else { kind := "p", text := pyStrip raw }

/-- Parse a char sequence: one `Block` per `splitlines` line. -/
def parseLines (cs : List Char) : List Block :=
  (splitlines cs).map classifyLine

/-- The parser `parse_markdown` (source lines 27–80). -/
def parse_markdown (md_text : String) : List Block :=
  parseLines md_text.data

/-- Span: one block's projected `[start, end)` range in the assembled text
(the `spans` entries of source line 163).  `stop` models the Python name
`end`, which is a Lean keyword. -/
structure Span where
  block : Block
  start : Nat
  stop : Nat
deriving DecidableEq, Repr

/-- Edit-operation record: the tagged variant of batch-update request dicts the
compiler emits.  `Option` fields model the field-scoped `fields` mask of
`_paragraph_style_request` and `_text_style_request` (a field appears in the
mask iff its option is `some`).  The `foregroundRGB` payload holds the
rational values of the Python float literals. -/
inductive Request where
  | insertText (index : Nat) (text : List Char)
  | updateParagraphStyle (startIndex stopIndex : Nat)
      (namedStyleType : Option String) (indentStartPt : Option Nat)
  | updateTextStyle (startIndex stopIndex : Nat)
      (bold italic : Option Bool) (fontSizePt : Option Nat)
      (foregroundRGB : Option (ℚ × ℚ × ℚ))
  | createParagraphBullets (startIndex stopIndex : Nat) (bulletPreset : String)
deriving DecidableEq, Repr

/-- `_paragraph_style_request` (source lines 83–101). -/
def paragraph_style_request (start stop : Nat)
    (named_style_type : Option String) (indent_pt : Option Nat) : Request :=
  Request.updateParagraphStyle start stop named_style_type indent_pt

/-- `_text_style_request` (source lines 104–131). -/
def text_style_request (start stop : Nat) (bold italic : Option Bool)
    (font_size_pt : Option Nat) (rgb : Option (ℚ × ℚ × ℚ)) : Request :=
  Request.updateTextStyle start stop bold italic font_size_pt rgb

/-- The span/text walk (source lines 153–163): starting the cursor at 1, for
each block record the part `text ++ "\n"` and the span
`⟨block, cursor, cursor + len(text) + 1⟩`, then advance the cursor. -/
def buildWalk : List Block → Nat → List (List Char) × List Span
  | [], _ => ([], [])
  | b :: bs, cursor =>
      let stop := cursor + b.text.length + 1
      let rest := buildWalk bs stop
      ((b.text ++ ['\n']) :: rest.1, ⟨b, cursor, stop⟩ :: rest.2)

/-- The spans of a block sequence (cursor starts at offset 1, source line 153). -/
def computeSpans (blocks : List Block) : List Span :=
  (buildWalk blocks 1).2

/-- The assembled `full_text` (source line 165). -/
def fullText (blocks : List Block) : List Char :=
  (buildWalk blocks 1).1.flatten

/-- Heading / footer styling pass (source lines 171–186). -/
def headingFooterReq (s : Span) : List Request :=
  if s.block.kind == "h1" then
    [paragraph_style_request s.start s.stop (some "HEADING_1") none]
  else if s.block.kind == "h2" then
    [paragraph_style_request s.start s.stop (some "HEADING_2") none]
  else if s.block.kind == "h3" then
    [paragraph_style_request s.start s.stop (some "HEADING_3") none]
  else if s.block.kind == "footer" then
    [text_style_request s.start s.stop none (some true) (some 10)
      (some (2/5, 2/5, 2/5))]
  else []

/-- Bullet / checkbox structuring pass (source lines 189–213). -/
def listReq (s : Span) : List Request :=
  if s.block.kind == "bullet" then
    Request.createParagraphBullets s.start s.stop "BULLET_DISC_CIRCLE_SQUARE" ::
      (if 0 < s.block.level then
        [paragraph_style_request s.start s.stop none (some (18 * s.block.level))]
      else [])
  else if s.block.kind == "checkbox" then
    Request.createParagraphBullets s.start s.stop "BULLET_CHECKBOX" ::
      (if 0 < s.block.level then
        [paragraph_style_request s.start s.stop none (some (18 * s.block.level))]
      else [])
  else []

/-- Worker for `mentionFinditer`, structurally recursive on a fuel argument;
every step consumes at least one character, so fuel `cs.length` suffices. -/
def mentionFinditerGo : Nat → List Char → Nat → List (Nat × Nat)
  | 0, _, _ => []
  | _ + 1, [], _ => []
  | fuel + 1, '@' :: rest, i =>
      let run := (rest.takeWhile isWordChar).length
      if run = 0 then mentionFinditerGo fuel rest (i + 1)
      else (i, i + 1 + run) :: mentionFinditerGo fuel (rest.drop run) (i + 1 + run)
  | fuel + 1, _ :: rest, i => mentionFinditerGo fuel rest (i + 1)

/-- The matches of `MENTION_RE = re.compile(r"@\w+")` via `finditer`
(source lines 16 and 220): the non-overlapping, leftmost, maximal-munch
`(start, end)` index pairs of `@`-plus-word-run tokens, `i` being the index
of the head of the remaining list. -/
def mentionFinditer (cs : List Char) (i : Nat) : List (Nat × Nat) :=
  mentionFinditerGo cs.length cs i

/-- Mention-bolding pass (source lines 216–223); spans with empty text are
skipped by `if not b.text: continue`. -/
def mentionReq (s : Span) : List Request :=
  if s.block.text.isEmpty then []
  else (mentionFinditer s.block.text 0).map (fun m =>
    text_style_request (s.start + m.1) (s.start + m.2) (some true) none none none)

/-- The block-to-requests compiler: the pure core of `markdown_to_google_doc`
on an already-parsed block sequence (source lines 151–223).  The request list
is the single `insertText` at index 1 followed by the three styling passes in
source order. -/
def compileBlocks (blocks : List Block) : List Char × List Request :=
  let full_text := fullText blocks
  let spans := computeSpans blocks
  (full_text,
    Request.insertText 1 full_text ::
      (((spans.map headingFooterReq).flatten ++ (spans.map listReq).flatten) ++
        (spans.map mentionReq).flatten))

/-- The pure core of `markdown_to_google_doc` (source lines 149–223): parse,
assemble the full text, and emit the ordered request list. -/
def markdown_to_google_doc_requests (md_text : String) : List Char × List Request :=
  compileBlocks (parse_markdown md_text)

/-- Modelled from the claim wording of C2: line splitting in which a trailing
newline contributes a trailing empty line, i.e. splitting at every `'\n'`
(Python `s.split("\n")`). -/
def newlineSplit : List Char → List (List Char)
  | [] => [[]]
  | '\n' :: rest => [] :: newlineSplit rest
  | c :: rest =>
      match newlineSplit rest with
      | l :: ls => (c :: l) :: ls
      | [] => [[c]]

/-- Sum of `len(text) + 1` over the first `i` blocks: the offset of block `i`
relative to the base insertion offset. -/
def offsetAt (bs : List Block) (i : Nat) : Nat :=
  ((bs.take i).map (fun b => b.text.length + 1)).sum

/-- Shape predicate: an insert-text operation. -/
def isInsertTextOp : Request → Bool
  | .insertText _ _ => true
  | _ => false

/-- Shape predicate: a heading paragraph-style operation or the footer
text-style operation (the Step-2 pass). -/
def isHeadingFooterOp : Request → Bool
  | .updateParagraphStyle _ _ (some _) none => true
  | .updateTextStyle _ _ none (some _) (some _) (some _) => true
  | _ => false

/-- Shape predicate: a list-structuring or indent operation (the Step-3 pass). -/
def isListStructureOp : Request → Bool
  | .createParagraphBullets _ _ _ => true
  | .updateParagraphStyle _ _ none (some _) => true
  | _ => false

/-- Shape predicate: a mention-bolding text-style operation (the Step-4 pass). -/
def isMentionBoldOp : Request → Bool
  | .updateTextStyle _ _ (some true) none none none => true
  | _ => false

/-- Shape predicate: an indent operation (paragraph style touching only
`indentStart`). -/
def isIndentOp : Request → Bool
  | .updateParagraphStyle _ _ none (some _) => true
  | _ => false

/-- Modelled from the spec (§4.1): the ordered first-match rule list — blank,
heading-1, heading-2, heading-3, checkbox, bullet, footer,
horizontal-rule-as-blank, paragraph (catch-all).  Each rule pairs its pattern
test with its block construction. -/
def specRules : List ((List Char → Bool) × (List Char → Block)) :=
  [ (fun raw => (pyStrip raw).isEmpty,
     fun _ => { kind := "blank", text := [] }),
    (fun raw => startswith raw ['#', ' '],
     fun raw => { kind := "h1", text := pyStrip (raw.drop 2) }),
    (fun raw => startswith raw ['#', '#', ' '],
     fun raw => { kind := "h2", text := pyStrip (raw.drop 3) }),
    (fun raw => startswith raw ['#', '#', '#', ' '],
     fun raw => { kind := "h3", text := pyStrip (raw.drop 4) }),
    (checkboxMatch,
     fun raw => { kind := "checkbox", text := pyStrip (checkboxSub raw),
                  level := bulletLevel raw, checked := checkedMatch raw }),
    (bulletMatch,
     fun raw => { kind := "bullet", text := pyStrip (bulletSub raw),
                  level := bulletLevel raw }),
    (fun raw => startswith raw
        ['M','e','e','t','i','n','g',' ','r','e','c','o','r','d','e','d',' ','b','y',':']
      || startswith raw ['D','u','r','a','t','i','o','n',':'],
     fun raw => { kind := "footer", text := pyStrip raw }),
    (fun raw => pyStrip raw == ['-', '-', '-'],
     fun _ => { kind := "blank", text := [] }),
    (fun _ => true,
     fun raw => { kind := "p", text := pyStrip raw }) ]

/-- First-match dispatch over an ordered rule list (the spec's classification
contract); the fallback is unreachable because the last rule always matches. -/
def firstMatchClassify : List ((List Char → Bool) × (List Char → Block)) → List Char → Block
  | [], raw => { kind := "p", text := pyStrip raw }
  | r :: rs, raw => if r.1 raw then r.2 raw else firstMatchClassify rs raw

/-- Modelled from the spec (§8, idempotence property): rebuild one block's
source line, re-adding the original markers of heading, checkbox and bullet
blocks (indentation as two spaces per level); footer and paragraph text is
kept as-is (footer text already retains its prefix), blank blocks rebuild to
an empty line. -/
def reconstructLine (b : Block) : List Char :=
  if b.kind = "h1" then '#' :: ' ' :: b.text
  else if b.kind = "h2" then '#' :: '#' :: ' ' :: b.text
  else if b.kind = "h3" then '#' :: '#' :: '#' :: ' ' :: b.text
  else if b.kind = "checkbox" then
    List.replicate (2 * b.level) ' ' ++
      ('-' :: ' ' :: '[' :: (if b.checked then 'x' else ' ') :: ']' :: ' ' :: b.text)
  else if b.kind = "bullet" then
    List.replicate (2 * b.level) ' ' ++ ('-' :: ' ' :: b.text)
  else b.text

/-- Modelled from the spec: the reconstructed source text, each rebuilt line
followed by the line terminator. -/
def reconstructText (bs : List Block) : List Char :=
  (bs.map (fun b => reconstructLine b ++ ['\n'])).flatten

theorem buildWalk_parts (bs : List Block) (c : Nat) :
    (buildWalk bs c).1 = bs.map (fun b => b.text ++ ['\n']) := by
  induction bs generalizing c with
  | nil => rfl
  | cons b bs ih => simp [buildWalk, ih]

theorem buildWalk_spans_length (bs : List Block) (c : Nat) :
    (buildWalk bs c).2.length = bs.length := by
  induction bs generalizing c with
  | nil => rfl
  | cons b bs ih => simp [buildWalk, ih]

theorem buildWalk_spans_getElem? (bs : List Block) (c i : Nat) :
    (buildWalk bs c).2[i]? =
      (bs[i]?).map (fun b =>
        Span.mk b (c + offsetAt bs i) (c + offsetAt bs i + b.text.length + 1)) := by
  induction bs generalizing c i with
  | nil => simp [buildWalk]
  | cons b bs ih =>
    cases i with
    | zero => simp [buildWalk, offsetAt]
    | succ j =>
      simp only [buildWalk, List.getElem?_cons_succ]
      rw [ih]
      have hoff : offsetAt (b :: bs) (j + 1) = (b.text.length + 1) + offsetAt bs j := by
        simp [offsetAt, List.take_succ_cons, Nat.add_comm]
      cases hb : bs[j]? with
      | none => rfl
      | some b' =>
        rw [hoff]
        simp only [Option.map_some', Option.some.injEq, Span.mk.injEq, true_and]
        omega

theorem offsetAt_succ (bs : List Block) (i : Nat) (b : Block) (hb : bs[i]? = some b) :
    offsetAt bs (i + 1) = offsetAt bs i + (b.text.length + 1) := by
  unfold offsetAt
  rw [List.take_succ, hb]
  simp

/-- C1, counterexample: on the empty input the compiler does not emit zero
operations — the unconditional `insertText` request (source line 168) is
emitted even when the assembled text is empty. -/
theorem c1_counterexample :
    (markdown_to_google_doc_requests "").2 = [Request.insertText 1 []] ∧
    (markdown_to_google_doc_requests "").2 ≠ [] := by decide

/-- C1 (amended): for the empty input the parser produces zero blocks and the
compiler's `full_text` is empty, but the operation list consists of exactly
one operation: the insert-text request with empty text at index 1.  There are
no styling operations. -/
theorem c1_empty_input :
    parse_markdown "" = [] ∧
    markdown_to_google_doc_requests "" = ([], [Request.insertText 1 []]) := by decide

/-- C2, counterexample: under the claim's convention the input `"a\n"` has two
lines (`newlineSplit` keeps the trailing empty line contributed by the
trailing newline), yet the parser produces a single block, and that block is a
paragraph — there is no trailing blank block. -/
theorem c2_counterexample :
    (newlineSplit "a\n".data).length = 2 ∧
    (parse_markdown "a\n").length ≠ (newlineSplit "a\n".data).length ∧
    parse_markdown "a\n" = [{ kind := "p", text := ['a'] }] := by decide

/-- C2 (amended): the parser is strictly 1:1 on the lines produced by Python
`splitlines`: the number of blocks equals the number of `splitlines` lines.
A trailing newline does not contribute a trailing blank block, because
`splitlines` yields no trailing empty line for it. -/
theorem c2_block_count (s : String) :
    (parse_markdown s).length = (splitlines s.data).length := by
  simp [parse_markdown, parseLines]

/-- C4: the spans computed by the compiler are contiguous, non-overlapping and
in block order: there are as many spans as blocks, the first span starts at
the base insertion offset 1, each span ends exactly where the next one starts,
and every span's extent is `len(text) + 1` (blank blocks included, which
contribute the bare terminator). -/
theorem c4_span_invariants (bs : List Block) :
    (computeSpans bs).length = bs.length ∧
    (∀ s : Span, (computeSpans bs).head? = some s → s.start = 1) ∧
    (∀ i : Nat, ∀ s t : Span,
      (computeSpans bs)[i]? = some s → (computeSpans bs)[i + 1]? = some t →
      s.stop = t.start) ∧
    (∀ i : Nat, ∀ b : Block, ∀ s : Span,
      bs[i]? = some b → (computeSpans bs)[i]? = some s →
      s.stop - s.start = b.text.length + 1) := by
  refine ⟨buildWalk_spans_length bs 1, ?_, ?_, ?_⟩
  · intro s hs
    cases bs with
    | nil => simp [computeSpans, buildWalk] at hs
    | cons b bs =>
      simp only [computeSpans, buildWalk, List.head?_cons, Option.some.injEq] at hs
      rw [← hs]
  · intro i s t hs ht
    rw [computeSpans, buildWalk_spans_getElem?] at hs ht
    cases hbi : bs[i]? with
    | none => rw [hbi] at hs; exact absurd hs (by simp)
    | some b =>
      rw [hbi] at hs
      cases hbj : bs[i + 1]? with
      | none => rw [hbj] at ht; exact absurd ht (by simp)
      | some b' =>
        rw [hbj] at ht
        simp only [Option.map_some', Option.some.injEq] at hs ht
        rw [← hs, ← ht]
        have := offsetAt_succ bs i b hbi
        simp only []
        omega
  · intro i b s hb hs
    rw [computeSpans, buildWalk_spans_getElem?, hb] at hs
    simp only [Option.map_some', Option.some.injEq] at hs
    rw [← hs]
    simp only []
    omega

/-- C4, witness: on the two-block sequence `[paragraph "hi", blank]` the spans
are `[1,4)` and `[4,5)`: the first starts at 1, they are contiguous, and each
extent is text length plus one. -/
theorem c4_witness :
    (computeSpans [{ kind := "p", text := ['h','i'] }, { kind := "blank", text := [] }]).length = 2 ∧
    (Span.mk { kind := "p", text := ['h','i'] } 1 4).stop =
      (Span.mk { kind := "blank", text := [] } 4 5).start ∧
    (Span.mk { kind := "p", text := ['h','i'] } 1 4).stop -
      (Span.mk { kind := "p", text := ['h','i'] } 1 4).start = 2 + 1 := by
  have h := c4_span_invariants
    [{ kind := "p", text := ['h','i'] }, { kind := "blank", text := [] }]
  refine ⟨h.1.trans (by decide), h.2.2.1 0 _ _ (by decide) (by decide), ?_⟩
  have h2 := h.2.2.2 0 { kind := "p", text := ['h','i'] }
    (Span.mk { kind := "p", text := ['h','i'] } 1 4) (by decide) (by decide)
  exact h2

/-- C5: concatenating `block.text + "\n"` over all blocks in order reproduces
exactly the `full_text` assembled by the compiler. -/
theorem c5_roundtrip (bs : List Block) :
    (compileBlocks bs).1 = (bs.map (fun b => b.text ++ ['\n'])).flatten := by
  simp [compileBlocks, fullText, buildWalk_parts]

theorem dropWhile_head_false {α : Type} {p : α → Bool} :
    ∀ {l as : List α} {a : α}, l.dropWhile p = a :: as → p a = false := by
  intro l
  induction l with
  | nil => intro as a h; simp at h
  | cons x xs ih =>
    intro as a h
    by_cases hp : p x = true
    · rw [List.dropWhile_cons_of_pos hp] at h
      exact ih h
    · rw [List.dropWhile_cons_of_neg hp] at h
      injection h with h1 _
      rw [← h1]
      exact Bool.not_eq_true _ |>.mp hp

theorem dropWhile_append_singleton_ne_nil {α : Type} {p : α → Bool} {a : α}
    (ha : p a = false) (l : List α) : (l ++ [a]).dropWhile p ≠ [] := by
  rw [List.dropWhile_append]
  split
  · rw [List.dropWhile_cons_of_neg (by simp [ha])]
    simp
  · simp

theorem pyStrip_isEmpty_eq_false {l as : List Char} {a : Char}
    (h : l.dropWhile pyIsSpace = a :: as) : (pyStrip l).isEmpty = false := by
  have ha : pyIsSpace a = false := dropWhile_head_false h
  unfold pyStrip
  rw [h, List.reverse_cons, List.isEmpty_eq_false]
  intro hrev
  rw [List.reverse_eq_nil_iff] at hrev
  exact dropWhile_append_singleton_ne_nil ha as.reverse hrev

theorem startswith_eq_cons {l ps : List Char} {c0 : Char}
    (h : startswith l (c0 :: ps) = true) : ∃ t, l = c0 :: t ∧ startswith t ps = true := by
  cases l with
  | nil => simp [startswith] at h
  | cons c cs =>
    unfold startswith at h
    rw [Bool.and_eq_true] at h
    exact ⟨cs, by rw [eq_of_beq h.1], h.2⟩

theorem startswith_append_self (p u : List Char) : startswith (p ++ u) p = true := by
  induction p with
  | nil => cases u <;> rfl
  | cons c ps ih => simp [startswith, ih]

theorem startswith_false_of_dropWhile {l as ps : List Char} {a : Char} (c0 : Char)
    (hd : l.dropWhile pyIsSpace = a :: as) (hsp : pyIsSpace c0 = false)
    (hne : a ≠ c0) : startswith l (c0 :: ps) = false := by
  cases hs : startswith l (c0 :: ps) with
  | false => rfl
  | true =>
    obtain ⟨t, rfl, -⟩ := startswith_eq_cons hs
    rw [List.dropWhile_cons_of_neg (by simp [hsp])] at hd
    injection hd with h1 _
    exact absurd h1.symm hne

theorem rstripNl_eq_self {l : List Char} (h : '\n' ∉ l) : rstripNl l = l := by
  unfold rstripNl
  cases hr : l.reverse with
  | nil => simp [List.reverse_eq_nil_iff.mp hr]
  | cons a as =>
    have hal : a ∈ l := List.mem_reverse.mp (hr ▸ List.mem_cons_self a as)
    have ha : a ≠ '\n' := fun he => h (he ▸ hal)
    have h1 : List.dropWhile (fun c => c == '\n') (a :: as) = a :: as :=
      List.dropWhile_cons_of_neg (by simp [ha])
    rw [h1, ← hr, List.reverse_reverse]

theorem pyStrip_cons_of_not_space (a : Char) (t : List Char) (ha : pyIsSpace a = false) :
    ∃ u, pyStrip (a :: t) = a :: u := by
  unfold pyStrip
  rw [List.dropWhile_cons_of_neg (by simp [ha]), List.reverse_cons, List.dropWhile_append]
  split
  · rw [List.dropWhile_cons_of_neg (by simp [ha])]
    exact ⟨[], by simp⟩
  · exact ⟨(t.reverse.dropWhile pyIsSpace).reverse, by simp⟩

theorem mem_pyStrip {x : Char} {l : List Char} (h : x ∈ pyStrip l) : x ∈ l := by
  unfold pyStrip at h
  rw [List.mem_reverse] at h
  have h2 := List.dropWhile_subset _ h
  rw [List.mem_reverse] at h2
  exact List.dropWhile_subset _ h2

theorem mem_rstripNl {x : Char} {l : List Char} (h : x ∈ rstripNl l) : x ∈ l := by
  unfold rstripNl at h
  rw [List.mem_reverse] at h
  have h2 := List.dropWhile_subset _ h
  rw [List.mem_reverse] at h2
  exact h2

theorem dropWhile_replicate_space (n : Nat) (l : List Char) :
    (List.replicate n ' ' ++ l).dropWhile pyIsSpace = l.dropWhile pyIsSpace :=
  List.dropWhile_append_of_pos
    (fun a ha => by rw [(List.mem_replicate.mp ha).2]; rfl)

theorem checkboxMatch_eq_false_of_head {l as : List Char} {a : Char}
    (hd : l.dropWhile pyIsSpace = a :: as) (ha : a ≠ '-') : checkboxMatch l = false := by
  unfold checkboxMatch
  rw [hd]
  split
  · rename_i c m d rest heq
    injection heq with h1 _
    exact absurd h1 ha
  · rfl

theorem bulletMatch_eq_false_of_head {l as : List Char} {a : Char}
    (hd : l.dropWhile pyIsSpace = a :: as) (ha1 : a ≠ '-') (ha2 : a ≠ '*') :
    bulletMatch l = false := by
  unfold bulletMatch
  rw [hd]
  split
  · rename_i b c rest heq
    injection heq with h1 _
    rw [← h1]
    simp [beq_eq_false_iff_ne.mpr ha1, beq_eq_false_iff_ne.mpr ha2]
  · rfl

theorem bulletMatch_eq_true_of {l rest : List Char} {c : Char}
    (hd : l.dropWhile pyIsSpace = '-' :: c :: rest) (hc : pyIsSpace c = true) :
    bulletMatch l = true := by
  unfold bulletMatch
  rw [hd]
  simp [hc]

theorem checkboxMatch_eq_true_of {l rest : List Char} {c m d : Char}
    (hd : l.dropWhile pyIsSpace = '-' :: c :: '[' :: m :: ']' :: d :: rest)
    (hc : pyIsSpace c = true) (hm : (m == ' ' || m == 'x' || m == 'X') = true)
    (hds : pyIsSpace d = true) : checkboxMatch l = true := by
  unfold checkboxMatch
  rw [hd]
  simp [hc, hm, hds]

theorem mem_headingFooterReq {s : Span} {r : Request} (h : r ∈ headingFooterReq s) :
    isHeadingFooterOp r = true := by
  unfold headingFooterReq at h
  repeat' split at h
  all_goals first
    | exact absurd h (List.not_mem_nil r)
    | (rw [List.mem_singleton] at h; subst h; rfl)

theorem mem_listReq {s : Span} {r : Request} (h : r ∈ listReq s) :
    isListStructureOp r = true := by
  unfold listReq at h
  repeat' split at h
  all_goals first
    | exact absurd h (List.not_mem_nil r)
    | (rcases List.mem_cons.mp h with rfl | h2;
       · rfl
       · first
         | exact absurd h2 (List.not_mem_nil r)
         | (rw [List.mem_singleton] at h2; subst h2; rfl))

theorem mem_mentionReq {s : Span} {r : Request} (h : r ∈ mentionReq s) :
    isMentionBoldOp r = true := by
  unfold mentionReq at h
  split at h
  · exact absurd h (List.not_mem_nil r)
  · obtain ⟨m, _, rfl⟩ := List.mem_map.mp h
    rfl

theorem mem_flatten_map {α β : Type} {f : α → List β} {l : List α} {r : β}
    (h : r ∈ (l.map f).flatten) : ∃ a ∈ l, r ∈ f a := by
  obtain ⟨t, ht, hr⟩ := List.mem_flatten.mp h
  obtain ⟨a, ha, rfl⟩ := List.mem_map.mp ht
  exact ⟨a, ha, hr⟩

theorem isInsertTextOp_false_of_headingFooter {r : Request}
    (h : isHeadingFooterOp r = true) : isInsertTextOp r = false := by
  cases r with
  | insertText i t => exact absurd h (by simp [isHeadingFooterOp])
  | _ => rfl

theorem isInsertTextOp_false_of_listStructure {r : Request}
    (h : isListStructureOp r = true) : isInsertTextOp r = false := by
  cases r with
  | insertText i t => exact absurd h (by simp [isListStructureOp])
  | _ => rfl

theorem isInsertTextOp_false_of_mentionBold {r : Request}
    (h : isMentionBoldOp r = true) : isInsertTextOp r = false := by
  cases r with
  | insertText i t => exact absurd h (by simp [isMentionBoldOp])
  | _ => rfl

/-- C6: for every non-empty block sequence the request list starts with the
single insert-text operation (inserting the assembled full text at index 1),
and every following operation belongs to one of three groups appearing in the
fixed relative order heading/footer styles, then list structuring and indents,
then mention bolding; the insert-text operation occurs exactly once. -/
theorem c6_operation_order (bs : List Block) (_hbs : bs ≠ []) :
    ∃ styleOps listOps mentionOps : List Request,
      (compileBlocks bs).2 =
        Request.insertText 1 (compileBlocks bs).1 ::
          (styleOps ++ listOps ++ mentionOps) ∧
      (∀ r ∈ styleOps, isHeadingFooterOp r = true) ∧
      (∀ r ∈ listOps, isListStructureOp r = true) ∧
      (∀ r ∈ mentionOps, isMentionBoldOp r = true) ∧
      ((compileBlocks bs).2.filter isInsertTextOp).length = 1 := by
  refine ⟨((computeSpans bs).map headingFooterReq).flatten,
          ((computeSpans bs).map listReq).flatten,
          ((computeSpans bs).map mentionReq).flatten, ?_, ?_, ?_, ?_, ?_⟩
  · simp [compileBlocks, fullText]
  · intro r hr
    obtain ⟨s, _, h⟩ := mem_flatten_map hr
    exact mem_headingFooterReq h
  · intro r hr
    obtain ⟨s, _, h⟩ := mem_flatten_map hr
    exact mem_listReq h
  · intro r hr
    obtain ⟨s, _, h⟩ := mem_flatten_map hr
    exact mem_mentionReq h
  · have htail : ∀ r ∈ ((computeSpans bs).map headingFooterReq).flatten ++
        ((computeSpans bs).map listReq).flatten ++
        ((computeSpans bs).map mentionReq).flatten, isInsertTextOp r = false := by
      intro r hr
      rcases List.mem_append.mp hr with hr' | hr'
      · rcases List.mem_append.mp hr' with hr'' | hr''
        · exact isInsertTextOp_false_of_headingFooter
            (mem_headingFooterReq (mem_flatten_map hr'').choose_spec.2)
        · exact isInsertTextOp_false_of_listStructure
            (mem_listReq (mem_flatten_map hr'').choose_spec.2)
      · exact isInsertTextOp_false_of_mentionBold
          (mem_mentionReq (mem_flatten_map hr').choose_spec.2)
    have hops : (compileBlocks bs).2 =
        Request.insertText 1 (compileBlocks bs).1 ::
          (((computeSpans bs).map headingFooterReq).flatten ++
            ((computeSpans bs).map listReq).flatten ++
            ((computeSpans bs).map mentionReq).flatten) := by
      simp [compileBlocks, fullText]
    rw [hops, List.filter_cons]
    have h1 : isInsertTextOp (Request.insertText 1 (compileBlocks bs).1) = true := rfl
    rw [if_pos (by simp [h1])]
    have h2 : (((computeSpans bs).map headingFooterReq).flatten ++
        ((computeSpans bs).map listReq).flatten ++
        ((computeSpans bs).map mentionReq).flatten).filter isInsertTextOp = [] := by
      rw [List.filter_eq_nil_iff]
      intro r hr
      simp [htail r hr]
    rw [h2]
    rfl

/-- C6, witness: instantiation at the one-block sequence `[heading-1 "T"]`. -/
theorem c6_witness :
    ∃ styleOps listOps mentionOps : List Request,
      (compileBlocks [{ kind := "h1", text := ['T'] }]).2 =
        Request.insertText 1 (compileBlocks [{ kind := "h1", text := ['T'] }]).1 ::
          (styleOps ++ listOps ++ mentionOps) ∧
      (∀ r ∈ styleOps, isHeadingFooterOp r = true) ∧
      (∀ r ∈ listOps, isListStructureOp r = true) ∧
      (∀ r ∈ mentionOps, isMentionBoldOp r = true) ∧
      ((compileBlocks [{ kind := "h1", text := ['T'] }]).2.filter isInsertTextOp).length = 1 :=
  c6_operation_order [{ kind := "h1", text := ['T'] }] (by decide)

theorem filter_flatten_map_nil {α β : Type} (p : β → Bool) (f : α → List β)
    (hf : ∀ a, (f a).filter p = []) (l : List α) :
    (((l.map f).flatten).filter p) = [] := by
  induction l with
  | nil => rfl
  | cons a l ih => simp [List.filter_append, hf, ih]

theorem filter_flatten_map_self {α β : Type} (p : β → Bool) (f : α → List β)
    (hf : ∀ a, (f a).filter p = f a) (l : List α) :
    (((l.map f).flatten).filter p) = (l.map f).flatten := by
  induction l with
  | nil => rfl
  | cons a l ih => simp [List.filter_append, hf, ih]

theorem headingFooterReq_filter_mentionBold (s : Span) :
    (headingFooterReq s).filter isMentionBoldOp = [] := by
  unfold headingFooterReq
  repeat' split
  all_goals rfl

theorem listReq_filter_mentionBold (s : Span) :
    (listReq s).filter isMentionBoldOp = [] := by
  unfold listReq
  repeat' split
  all_goals rfl

theorem mentionReq_filter_mentionBold (s : Span) :
    (mentionReq s).filter isMentionBoldOp = mentionReq s := by
  rw [List.filter_eq_self]
  intro r hr
  exact mem_mentionReq hr

/-- The skip of empty-text spans in the mention pass is invisible in the
result: an empty text has no mention matches. -/
theorem mentionReq_eq (s : Span) :
    mentionReq s =
      (mentionFinditer s.block.text 0).map (fun m =>
        text_style_request (s.start + m.1) (s.start + m.2) (some true) none none none) := by
  unfold mentionReq
  split
  · rename_i h
    rw [List.isEmpty_iff] at h
    rw [h]
    rfl
  · rfl

/-- C7: the mention-bold operations the compiler emits are exactly, in order,
one bold text-style operation per `MENTION_RE` match in each span's text, over
the sub-range `[span.start + match.start, span.start + match.end)`; spans with
empty text contribute none (an empty text has no matches). -/
theorem c7_mention_ops (bs : List Block) :
    ((compileBlocks bs).2.filter isMentionBoldOp) =
      ((computeSpans bs).map (fun s =>
        (mentionFinditer s.block.text 0).map (fun m =>
          text_style_request (s.start + m.1) (s.start + m.2) (some true) none none none))).flatten := by
  have hops : (compileBlocks bs).2 =
      Request.insertText 1 (fullText bs) ::
        (((computeSpans bs).map headingFooterReq).flatten ++
          ((computeSpans bs).map listReq).flatten ++
          ((computeSpans bs).map mentionReq).flatten) := by
    simp [compileBlocks]
  rw [hops, List.filter_cons]
  rw [if_neg (by simp [isMentionBoldOp])]
  rw [List.filter_append, List.filter_append]
  rw [filter_flatten_map_nil _ _ headingFooterReq_filter_mentionBold,
      filter_flatten_map_nil _ _ listReq_filter_mentionBold,
      filter_flatten_map_self _ _ mentionReq_filter_mentionBold]
  simp only [List.nil_append]
  exact congrArg List.flatten (List.map_congr_left (fun s _ => mentionReq_eq s))

theorem headingFooterReq_filter_indent (s : Span) :
    (headingFooterReq s).filter isIndentOp = [] := by
  unfold headingFooterReq
  repeat' split
  all_goals rfl

theorem isIndentOp_false_of_mentionBold {r : Request}
    (h : isMentionBoldOp r = true) : isIndentOp r = false := by
  cases r with
  | updateParagraphStyle a b nst ind => exact absurd h (by simp [isMentionBoldOp])
  | _ => rfl

theorem mentionReq_filter_indent (s : Span) :
    (mentionReq s).filter isIndentOp = [] := by
  rw [List.filter_eq_nil_iff]
  intro r hr
  simp [isIndentOp_false_of_mentionBold (mem_mentionReq hr)]

theorem listReq_filter_indent (s : Span) :
    (listReq s).filter isIndentOp =
      (if (s.block.kind = "bullet" ∨ s.block.kind = "checkbox") ∧ 0 < s.block.level
       then [paragraph_style_request s.start s.stop none (some (18 * s.block.level))]
       else []) := by
  unfold listReq
  by_cases hb : s.block.kind = "bullet"
  · by_cases hl : 0 < s.block.level
    · simp [hb, hl, isIndentOp, paragraph_style_request, List.filter_cons]
    · simp [hb, hl, isIndentOp, List.filter_cons]
  · by_cases hc : s.block.kind = "checkbox"
    · by_cases hl : 0 < s.block.level
      · simp [hb, hc, hl, isIndentOp, paragraph_style_request, List.filter_cons]
      · simp [hb, hc, hl, isIndentOp, List.filter_cons]
    · simp [hb, hc]

/-- C8: the indent operations the compiler emits are exactly one indent
operation per bullet/checkbox span whose block has `level > 0`, over the
block's span, with magnitude `18 * level` points; no other span contributes
an indent operation. -/
theorem c8_indent_ops (bs : List Block) :
    ((compileBlocks bs).2.filter isIndentOp) =
      ((computeSpans bs).map (fun s =>
        if (s.block.kind = "bullet" ∨ s.block.kind = "checkbox") ∧ 0 < s.block.level
        then [paragraph_style_request s.start s.stop none (some (18 * s.block.level))]
        else [])).flatten := by
  have hops : (compileBlocks bs).2 =
      Request.insertText 1 (fullText bs) ::
        (((computeSpans bs).map headingFooterReq).flatten ++
          ((computeSpans bs).map listReq).flatten ++
          ((computeSpans bs).map mentionReq).flatten) := by
    simp [compileBlocks]
  rw [hops, List.filter_cons]
  rw [if_neg (by simp [isIndentOp])]
  rw [List.filter_append, List.filter_append]
  rw [filter_flatten_map_nil _ _ headingFooterReq_filter_indent,
      filter_flatten_map_nil _ _ mentionReq_filter_indent]
  simp only [List.nil_append, List.append_nil]
  have : (((computeSpans bs).map listReq).flatten).filter isIndentOp =
      ((computeSpans bs).map (fun s => (listReq s).filter isIndentOp)).flatten := by
    induction (computeSpans bs) with
    | nil => rfl
    | cons a l ih => simp [List.filter_append, ih]
  rw [this]
  exact congrArg List.flatten (List.map_congr_left (fun s _ => listReq_filter_indent s))

/-- C3: classification is the first-match cascade over the spec's ordered rule
list (applied to the line after the source's `rstrip("\n")`); in particular a
(newline-free) line matching the checkbox pattern also matches the generic
bullet pattern yet is classified as a checkbox, with `checked` true iff the
bracket pair contains `x` or `X` (the checked-checkbox pattern). -/
theorem c3_priority_checkbox_over_bullet :
    (∀ line : List Char,
      firstMatchClassify specRules (rstripNl line) = classifyLine line) ∧
    (∀ line : List Char, checkboxMatch line = true → '\n' ∉ line →
      bulletMatch line = true ∧
      (classifyLine line).kind = "checkbox" ∧
      ((classifyLine line).checked = true ↔ checkedMatch line = true)) := by
  constructor
  · intro line
    rfl
  · intro line h hn
    have hrst : rstripNl line = line := rstripNl_eq_self hn
    have h' := h
    unfold checkboxMatch at h'
    split at h'
    case h_2 => exact absurd h' (by simp)
    case h_1 c m d rest heq =>
      simp only [Bool.and_eq_true] at h'
      obtain ⟨⟨hc, -⟩, -⟩ := h'
      have hbul : bulletMatch line = true := bulletMatch_eq_true_of heq hc
      have hblank : (pyStrip line).isEmpty = false := pyStrip_isEmpty_eq_false heq
      have h1 : startswith line ['#', ' '] = false :=
        startswith_false_of_dropWhile '#' heq (by decide) (by decide)
      have h2 : startswith line ['#', '#', ' '] = false :=
        startswith_false_of_dropWhile '#' heq (by decide) (by decide)
      have h3 : startswith line ['#', '#', '#', ' '] = false :=
        startswith_false_of_dropWhile '#' heq (by decide) (by decide)
      refine ⟨hbul, ?_, ?_⟩
      · simp [classifyLine, hrst, hblank, h1, h2, h3, h]
      · simp [classifyLine, hrst, hblank, h1, h2, h3, h]

/-- C3, witness: the line `"- [x] a"` matches both the checkbox and the bullet
patterns, is classified as a checked checkbox. -/
theorem c3_witness :
    bulletMatch ['-',' ','[','x',']',' ','a'] = true ∧
    (classifyLine ['-',' ','[','x',']',' ','a']).kind = "checkbox" ∧
    ((classifyLine ['-',' ','[','x',']',' ','a']).checked = true ↔
      checkedMatch ['-',' ','[','x',']',' ','a'] = true) :=
  c3_priority_checkbox_over_bullet.2 ['-',' ','[','x',']',' ','a'] (by decide) (by decide)

/-- C10: only the exact prefixes `"# "`, `"## "`, `"### "` produce heading
blocks.  A line (newline-free, as all `splitlines` lines are) that starts with
`'#'` but with none of those three exact prefixes — e.g. four or more `'#'`
followed by a space, or `'#'` not followed by a space — is classified as a
paragraph whose text is the full trimmed line. -/
theorem c10_hash_paragraph (l : List Char) (hn : '\n' ∉ l)
    (h0 : startswith l ['#'] = true)
    (h1 : startswith l ['#', ' '] = false)
    (h2 : startswith l ['#', '#', ' '] = false)
    (h3 : startswith l ['#', '#', '#', ' '] = false) :
    classifyLine l = { kind := "p", text := pyStrip l, level := 0, checked := false } := by
  obtain ⟨t, rfl, -⟩ := startswith_eq_cons h0
  have hrst : rstripNl ('#' :: t) = '#' :: t := rstripNl_eq_self hn
  have hdw : ('#' :: t).dropWhile pyIsSpace = '#' :: t :=
    List.dropWhile_cons_of_neg (by decide)
  have hblank : (pyStrip ('#' :: t)).isEmpty = false := pyStrip_isEmpty_eq_false hdw
  have hcb : checkboxMatch ('#' :: t) = false :=
    checkboxMatch_eq_false_of_head hdw (by decide)
  have hbul : bulletMatch ('#' :: t) = false :=
    bulletMatch_eq_false_of_head hdw (by decide) (by decide)
  have hfoot1 : startswith ('#' :: t)
      ['M','e','e','t','i','n','g',' ','r','e','c','o','r','d','e','d',' ','b','y',':'] = false :=
    startswith_false_of_dropWhile 'M' hdw (by decide) (by decide)
  have hfoot2 : startswith ('#' :: t) ['D','u','r','a','t','i','o','n',':'] = false :=
    startswith_false_of_dropWhile 'D' hdw (by decide) (by decide)
  have hhr : (pyStrip ('#' :: t) == ['-', '-', '-']) = false := by
    obtain ⟨u, hu⟩ := pyStrip_cons_of_not_space '#' t (by decide)
    rw [hu]
    rfl
  simp [classifyLine, hrst, hblank, h1, h2, h3, hcb, hbul, hfoot1, hfoot2, hhr]

/-- C10, witness: the line `"#### x"` (four hashes then a space) is parsed as
a paragraph with text `"#### x"`. -/
theorem c10_witness :
    classifyLine ['#','#','#','#',' ','x'] =
      { kind := "p", text := ['#','#','#','#',' ','x'], level := 0, checked := false } := by
  have h := c10_hash_paragraph ['#','#','#','#',' ','x']
    (by decide) (by decide) (by decide) (by decide) (by decide)
  rw [h]
  decide

theorem splitlinesGo_cons_nobreak (c : Char) (rest acc : List Char) (skip : Bool)
    (h : isLineBreak c = false) :
    splitlinesGo (c :: rest) acc skip = splitlinesGo rest (c :: acc) false := by
  have hn : (c == '\n') = false := by
    rcases Bool.eq_false_or_eq_true (c == '\n') with h' | h'
    · rw [eq_of_beq h'] at h
      simp [isLineBreak] at h
    · exact h'
  simp [splitlinesGo, h, hn]

theorem splitlinesGo_cons_newline (r acc : List Char) :
    splitlinesGo ('\n' :: r) acc false =
      acc.reverse :: (if r = [] then [] else splitlinesGo r [] false) := by
  simp [splitlinesGo, isLineBreak]

theorem splitlinesGo_append_newline (l : List Char)
    (hl : ∀ c ∈ l, isLineBreak c = false) :
    ∀ (r acc : List Char),
      splitlinesGo (l ++ '\n' :: r) acc false =
        (acc.reverse ++ l) :: (if r = [] then [] else splitlinesGo r [] false) := by
  induction l with
  | nil =>
    intro r acc
    rw [List.nil_append, splitlinesGo_cons_newline, List.append_nil]
  | cons c l ih =>
    intro r acc
    have hc : isLineBreak c = false := hl c (List.mem_cons_self c l)
    rw [List.cons_append, splitlinesGo_cons_nobreak c _ _ _ hc,
        ih (fun x hx => hl x (List.mem_cons_of_mem c hx)) r (c :: acc)]
    simp

theorem splitlines_flatten_map (ls : List (List Char))
    (h : ∀ l ∈ ls, ∀ c ∈ l, isLineBreak c = false) :
    splitlines ((ls.map (fun l => l ++ ['\n'])).flatten) = ls := by
  induction ls with
  | nil => rfl
  | cons l ls ih =>
    have hflat : ((l :: ls).map (fun l => l ++ ['\n'])).flatten =
        l ++ '\n' :: (ls.map (fun l => l ++ ['\n'])).flatten := by
      simp
    rw [hflat]
    have hne : l ++ '\n' :: (ls.map (fun l => l ++ ['\n'])).flatten ≠ [] := by
      simp
    rw [splitlines, if_neg hne,
        splitlinesGo_append_newline l (h l (List.mem_cons_self l ls)) _ []]
    have ihr := ih (fun x hx c hc => h x (List.mem_cons_of_mem l hx) c hc)
    rw [splitlines] at ihr
    simp only [List.reverse_nil, List.nil_append]
    rw [ihr]

theorem splitlinesGo_mem_nobreak :
    ∀ (cs acc : List Char) (skip : Bool),
      (∀ c ∈ acc, isLineBreak c = false) →
      ∀ l ∈ splitlinesGo cs acc skip, ∀ c ∈ l, isLineBreak c = false := by
  intro cs
  induction cs with
  | nil =>
    intro acc skip hacc l hl c hc
    simp [splitlinesGo] at hl
    subst hl
    exact hacc c (List.mem_reverse.mp hc)
  | cons x rest ih =>
    intro acc skip hacc l hl c hc
    by_cases hx : isLineBreak x = true
    · rw [show splitlinesGo (x :: rest) acc skip =
          if skip && x == '\n' then
            if rest = [] then [] else splitlinesGo rest [] false
          else
            acc.reverse :: (if rest = [] then [] else splitlinesGo rest [] (x == '\r'))
          from by simp [splitlinesGo, hx]] at hl
      split at hl
      · split at hl
        · simp at hl
        · exact ih [] false (by simp) l hl c hc
      · rcases List.mem_cons.mp hl with rfl | hl2
        · exact hacc c (List.mem_reverse.mp hc)
        · split at hl2
          · simp at hl2
          · exact ih [] _ (by simp) l hl2 c hc
    · rw [Bool.not_eq_true] at hx
      rw [splitlinesGo_cons_nobreak x rest acc skip hx] at hl
      refine ih (x :: acc) false ?_ l hl c hc
      intro y hy
      rcases List.mem_cons.mp hy with rfl | hy2
      · exact hx
      · exact hacc y hy2

theorem splitlines_mem_nobreak {cs l : List Char} (hl : l ∈ splitlines cs) :
    ∀ c ∈ l, isLineBreak c = false := by
  unfold splitlines at hl
  split at hl
  · simp at hl
  · exact splitlinesGo_mem_nobreak cs [] false (by simp) l hl

theorem checkboxSub_subset (raw : List Char) : ∀ x ∈ checkboxSub raw, x ∈ raw := by
  intro x hx
  unfold checkboxSub at hx
  split at hx
  · split at hx
    · rename_i rest heq
      have h1 := List.dropWhile_subset _ hx
      have h2 : x ∈ raw.dropWhile pyIsSpace := by
        rw [heq]
        simp [h1]
      exact List.dropWhile_subset _ h2
    · exact List.dropWhile_subset _ hx
  · exact hx

theorem bulletSub_subset (raw : List Char) : ∀ x ∈ bulletSub raw, x ∈ raw := by
  intro x hx
  unfold bulletSub at hx
  split at hx
  · split at hx
    · rename_i rest heq
      have h1 := List.dropWhile_subset _ hx
      have h2 : x ∈ raw.dropWhile pyIsSpace := by
        rw [heq]
        simp [h1]
      exact List.dropWhile_subset _ h2
    · exact List.dropWhile_subset _ hx
  · exact hx

theorem classifyLine_text_subset (l : List Char) : ∀ x ∈ (classifyLine l).text, x ∈ l := by
  intro x hx
  simp only [classifyLine] at hx
  repeat' split at hx
  all_goals first
    | exact absurd hx (List.not_mem_nil x)
    | exact mem_rstripNl (mem_pyStrip hx)
    | exact mem_rstripNl (List.drop_subset _ _ (mem_pyStrip hx))
    | exact mem_rstripNl (checkboxSub_subset _ x (mem_pyStrip hx))
    | exact mem_rstripNl (bulletSub_subset _ x (mem_pyStrip hx))

theorem nobreak_cons {a : Char} {t : List Char} (ha : isLineBreak a = false)
    (ht : ∀ c ∈ t, isLineBreak c = false) : ∀ c ∈ a :: t, isLineBreak c = false := by
  intro c hc
  rcases List.mem_cons.mp hc with rfl | h
  · exact ha
  · exact ht c h

theorem nobreak_append {A t : List Char} (hA : ∀ c ∈ A, isLineBreak c = false)
    (ht : ∀ c ∈ t, isLineBreak c = false) : ∀ c ∈ A ++ t, isLineBreak c = false := by
  intro c hc
  rcases List.mem_append.mp hc with h | h
  · exact hA c h
  · exact ht c h

theorem nobreak_replicate_space (n : Nat) :
    ∀ c ∈ List.replicate n ' ', isLineBreak c = false := by
  intro c hc
  rw [(List.mem_replicate.mp hc).2]
  decide

theorem not_mem_newline {t : List Char} (ht : ∀ c ∈ t, isLineBreak c = false) :
    '\n' ∉ t := by
  intro hmem
  have := ht '\n' hmem
  simp [isLineBreak] at this

theorem startswith_nil (l : List Char) : startswith l [] = true := by
  cases l <;> rfl

theorem classify_h1_marker (t : List Char) (hn : '\n' ∉ t) :
    (classifyLine ('#' :: ' ' :: t)).kind = "h1" := by
  have hnl : '\n' ∉ '#' :: ' ' :: t := by
    intro hmem
    rcases List.mem_cons.mp hmem with h | hmem2
    · exact absurd h (by decide)
    rcases List.mem_cons.mp hmem2 with h | hmem3
    · exact absurd h (by decide)
    · exact hn hmem3
  have hrst := rstripNl_eq_self hnl
  have hdw : ('#' :: ' ' :: t).dropWhile pyIsSpace = '#' :: ' ' :: t :=
    List.dropWhile_cons_of_neg (by decide)
  have hblank := pyStrip_isEmpty_eq_false hdw
  have hsw : startswith ('#' :: ' ' :: t) ['#', ' '] = true := by
    simp [startswith, startswith_nil]
  simp [classifyLine, hrst, hblank, hsw]

theorem classify_h2_marker (t : List Char) (hn : '\n' ∉ t) :
    (classifyLine ('#' :: '#' :: ' ' :: t)).kind = "h2" := by
  have hnl : '\n' ∉ '#' :: '#' :: ' ' :: t := by
    intro hmem
    rcases List.mem_cons.mp hmem with h | hmem2
    · exact absurd h (by decide)
    rcases List.mem_cons.mp hmem2 with h | hmem3
    · exact absurd h (by decide)
    rcases List.mem_cons.mp hmem3 with h | hmem4
    · exact absurd h (by decide)
    · exact hn hmem4
  have hrst := rstripNl_eq_self hnl
  have hdw : ('#' :: '#' :: ' ' :: t).dropWhile pyIsSpace = '#' :: '#' :: ' ' :: t :=
    List.dropWhile_cons_of_neg (by decide)
  have hblank := pyStrip_isEmpty_eq_false hdw
  have h1 : startswith ('#' :: '#' :: ' ' :: t) ['#', ' '] = false := by
    simp [startswith]
  have hsw : startswith ('#' :: '#' :: ' ' :: t) ['#', '#', ' '] = true := by
    simp [startswith, startswith_nil]
  simp [classifyLine, hrst, hblank, h1, hsw]

theorem classify_h3_marker (t : List Char) (hn : '\n' ∉ t) :
    (classifyLine ('#' :: '#' :: '#' :: ' ' :: t)).kind = "h3" := by
  have hnl : '\n' ∉ '#' :: '#' :: '#' :: ' ' :: t := by
    intro hmem
    rcases List.mem_cons.mp hmem with h | hmem2
    · exact absurd h (by decide)
    rcases List.mem_cons.mp hmem2 with h | hmem3
    · exact absurd h (by decide)
    rcases List.mem_cons.mp hmem3 with h | hmem4
    · exact absurd h (by decide)
    rcases List.mem_cons.mp hmem4 with h | hmem5
    · exact absurd h (by decide)
    · exact hn hmem5
  have hrst := rstripNl_eq_self hnl
  have hdw : ('#' :: '#' :: '#' :: ' ' :: t).dropWhile pyIsSpace = '#' :: '#' :: '#' :: ' ' :: t :=
    List.dropWhile_cons_of_neg (by decide)
  have hblank := pyStrip_isEmpty_eq_false hdw
  have h1 : startswith ('#' :: '#' :: '#' :: ' ' :: t) ['#', ' '] = false := by
    simp [startswith]
  have h2 : startswith ('#' :: '#' :: '#' :: ' ' :: t) ['#', '#', ' '] = false := by
    simp [startswith]
  have hsw : startswith ('#' :: '#' :: '#' :: ' ' :: t) ['#', '#', '#', ' '] = true := by
    simp [startswith, startswith_nil]
  simp [classifyLine, hrst, hblank, h1, h2, hsw]

theorem startswith_hash_false_of_head {l as : List Char} {a : Char}
    (hd : l.dropWhile pyIsSpace = a :: as) (ha : a ≠ '#') :
    startswith l ['#', ' '] = false ∧ startswith l ['#', '#', ' '] = false ∧
      startswith l ['#', '#', '#', ' '] = false :=
  ⟨startswith_false_of_dropWhile '#' hd (by decide) ha,
   startswith_false_of_dropWhile '#' hd (by decide) ha,
   startswith_false_of_dropWhile '#' hd (by decide) ha⟩

theorem classify_checkbox_marker (t : List Char) (n : Nat) (m : Char)
    (hn : '\n' ∉ t) (hm : (m == ' ' || m == 'x' || m == 'X') = true) :
    (classifyLine (List.replicate n ' ' ++
      ('-' :: ' ' :: '[' :: m :: ']' :: ' ' :: t))).kind = "checkbox" := by
  have hmn : m ≠ '\n' := by
    intro he
    subst he
    simp at hm
  have hnl : '\n' ∉ List.replicate n ' ' ++ ('-' :: ' ' :: '[' :: m :: ']' :: ' ' :: t) := by
    intro hmem
    rcases List.mem_append.mp hmem with h | h
    · exact absurd (List.mem_replicate.mp h).2 (by decide)
    rcases List.mem_cons.mp h with h1 | h
    · exact absurd h1 (by decide)
    rcases List.mem_cons.mp h with h1 | h
    · exact absurd h1 (by decide)
    rcases List.mem_cons.mp h with h1 | h
    · exact absurd h1 (by decide)
    rcases List.mem_cons.mp h with h1 | h
    · exact hmn h1.symm
    rcases List.mem_cons.mp h with h1 | h
    · exact absurd h1 (by decide)
    rcases List.mem_cons.mp h with h1 | h
    · exact absurd h1 (by decide)
    · exact hn h
  have hrst := rstripNl_eq_self hnl
  have hdw : (List.replicate n ' ' ++
      ('-' :: ' ' :: '[' :: m :: ']' :: ' ' :: t)).dropWhile pyIsSpace =
      '-' :: ' ' :: '[' :: m :: ']' :: ' ' :: t := by
    rw [dropWhile_replicate_space]
    exact List.dropWhile_cons_of_neg (by decide)
  have hblank := pyStrip_isEmpty_eq_false hdw
  obtain ⟨h1, h2, h3⟩ := startswith_hash_false_of_head hdw (by decide)
  have hcb := checkboxMatch_eq_true_of hdw (by decide) hm (by decide)
  simp [classifyLine, hrst, hblank, h1, h2, h3, hcb]

theorem classify_bullet_marker (t : List Char) (n : Nat) (hn : '\n' ∉ t)
    (hcb : checkboxMatch (List.replicate n ' ' ++ ('-' :: ' ' :: t)) = false) :
    (classifyLine (List.replicate n ' ' ++ ('-' :: ' ' :: t))).kind = "bullet" := by
  have hnl : '\n' ∉ List.replicate n ' ' ++ ('-' :: ' ' :: t) := by
    intro hmem
    rcases List.mem_append.mp hmem with h | h
    · exact absurd (List.mem_replicate.mp h).2 (by decide)
    rcases List.mem_cons.mp h with h1 | h
    · exact absurd h1 (by decide)
    rcases List.mem_cons.mp h with h1 | h
    · exact absurd h1 (by decide)
    · exact hn h
  have hrst := rstripNl_eq_self hnl
  have hdw : (List.replicate n ' ' ++ ('-' :: ' ' :: t)).dropWhile pyIsSpace =
      '-' :: ' ' :: t := by
    rw [dropWhile_replicate_space]
    exact List.dropWhile_cons_of_neg (by decide)
  have hblank := pyStrip_isEmpty_eq_false hdw
  obtain ⟨h1, h2, h3⟩ := startswith_hash_false_of_head hdw (by decide)
  have hbm := bulletMatch_eq_true_of hdw (by decide)
  simp [classifyLine, hrst, hblank, h1, h2, h3, hcb, hbm]

theorem classify_footer_text (t : List Char) (hn : '\n' ∉ t)
    (hf : startswith t
        ['M','e','e','t','i','n','g',' ','r','e','c','o','r','d','e','d',' ','b','y',':'] = true ∨
      startswith t ['D','u','r','a','t','i','o','n',':'] = true) :
    (classifyLine t).kind = "footer" := by
  have hrst := rstripNl_eq_self hn
  rcases hf with hf | hf
  · obtain ⟨t', rfl, -⟩ := startswith_eq_cons hf
    have hdw : ('M' :: t').dropWhile pyIsSpace = 'M' :: t' :=
      List.dropWhile_cons_of_neg (by decide)
    have hblank := pyStrip_isEmpty_eq_false hdw
    obtain ⟨h1, h2, h3⟩ := startswith_hash_false_of_head hdw (by decide)
    have hcbm := checkboxMatch_eq_false_of_head hdw (by decide)
    have hbm := bulletMatch_eq_false_of_head hdw (by decide) (by decide)
    simp [classifyLine, hrst, hblank, h1, h2, h3, hcbm, hbm, hf]
  · obtain ⟨t', rfl, -⟩ := startswith_eq_cons hf
    have hdw : ('D' :: t').dropWhile pyIsSpace = 'D' :: t' :=
      List.dropWhile_cons_of_neg (by decide)
    have hblank := pyStrip_isEmpty_eq_false hdw
    obtain ⟨h1, h2, h3⟩ := startswith_hash_false_of_head hdw (by decide)
    have hcbm := checkboxMatch_eq_false_of_head hdw (by decide)
    have hbm := bulletMatch_eq_false_of_head hdw (by decide) (by decide)
    simp [classifyLine, hrst, hblank, h1, h2, h3, hcbm, hbm, hf]

theorem startswith_iff_append {l p : List Char} (h : startswith l p = true) :
    ∃ t, l = p ++ t := by
  induction p generalizing l with
  | nil => exact ⟨l, rfl⟩
  | cons c ps ih =>
    obtain ⟨t, rfl, h2⟩ := startswith_eq_cons h
    obtain ⟨u, hu⟩ := ih h2
    exact ⟨u, by rw [hu, List.cons_append]⟩

theorem startswith_pyStrip {t pre : List Char} (hpne : pre ≠ [])
    (h1 : pre.dropWhile pyIsSpace = pre)
    (h2 : pre.reverse.dropWhile pyIsSpace = pre.reverse) :
    startswith (pyStrip (pre ++ t)) pre = true := by
  have e0 : pre.isEmpty = false := by
    cases pre with
    | nil => exact absurd rfl hpne
    | cons a as => rfl
  have e1 : (pre ++ t).dropWhile pyIsSpace = pre ++ t := by
    rw [List.dropWhile_append, h1, e0]
    simp
  unfold pyStrip
  rw [e1, List.reverse_append, List.dropWhile_append]
  split
  · rw [h2, List.reverse_reverse]
    simpa using startswith_append_self pre []
  · rw [List.reverse_append, List.reverse_reverse]
    exact startswith_append_self pre _

theorem classifyLine_kinds (l : List Char) :
    (classifyLine l).kind = "blank" ∨ (classifyLine l).kind = "h1" ∨
    (classifyLine l).kind = "h2" ∨ (classifyLine l).kind = "h3" ∨
    (classifyLine l).kind = "checkbox" ∨ (classifyLine l).kind = "bullet" ∨
    (classifyLine l).kind = "footer" ∨ (classifyLine l).kind = "p" := by
  simp only [classifyLine]
  repeat' split
  all_goals simp

theorem classifyLine_blank_text {l : List Char}
    (h : (classifyLine l).kind = "blank") : (classifyLine l).text = [] := by
  revert h
  simp only [classifyLine]
  repeat' split
  all_goals intro h
  all_goals first
    | rfl
    | simp at h

theorem classifyLine_footer_marker {l : List Char}
    (h : (classifyLine l).kind = "footer") :
    startswith (classifyLine l).text
        ['M','e','e','t','i','n','g',' ','r','e','c','o','r','d','e','d',' ','b','y',':'] = true ∨
      startswith (classifyLine l).text ['D','u','r','a','t','i','o','n',':'] = true := by
  revert h
  simp only [classifyLine]
  repeat' split
  all_goals intro h
  all_goals simp only [] at h
  all_goals first
    | exact absurd h (by decide)
    | skip
  rename_i hcond
  rw [Bool.or_eq_true] at hcond
  rcases hcond with hsw | hsw
  · obtain ⟨t, ht⟩ := startswith_iff_append hsw
    rw [ht]
    exact Or.inl (startswith_pyStrip (by decide) (by decide) (by decide))
  · obtain ⟨t, ht⟩ := startswith_iff_append hsw
    rw [ht]
    exact Or.inr (startswith_pyStrip (by decide) (by decide) (by decide))

theorem reconstructLine_nobreak (b : Block)
    (hnb : ∀ c ∈ b.text, isLineBreak c = false) :
    ∀ c ∈ reconstructLine b, isLineBreak c = false := by
  unfold reconstructLine
  repeat' split
  all_goals first
    | exact hnb
    | exact nobreak_cons (by decide) (nobreak_cons (by decide) hnb)
    | exact nobreak_cons (by decide) (nobreak_cons (by decide) (nobreak_cons (by decide) hnb))
    | exact nobreak_cons (by decide)
        (nobreak_cons (by decide) (nobreak_cons (by decide) (nobreak_cons (by decide) hnb)))
    | exact nobreak_append (nobreak_replicate_space _)
        (nobreak_cons (by decide) (nobreak_cons (by decide) hnb))
    | exact nobreak_append (nobreak_replicate_space _)
        (nobreak_cons (by decide) (nobreak_cons (by decide) (nobreak_cons (by decide)
          (nobreak_cons (by decide) (nobreak_cons (by decide) (nobreak_cons (by decide) hnb))))))

/-- Kind preservation under reconstruction for a single parsed line, under the
two guards of the amended idempotence claim: the line's paragraph text (if the
line is a paragraph) reclassifies as a paragraph, and (if it is a bullet) its
reconstructed line does not match the checkbox pattern. -/
theorem classify_reconstruct_kind (l : List Char)
    (hnb : ∀ c ∈ l, isLineBreak c = false)
    (hp : (classifyLine l).kind = "p" → (classifyLine (classifyLine l).text).kind = "p")
    (hcb : (classifyLine l).kind = "bullet" →
      checkboxMatch (reconstructLine (classifyLine l)) = false) :
    (classifyLine (reconstructLine (classifyLine l))).kind = (classifyLine l).kind := by
  have htext : ∀ c ∈ (classifyLine l).text, isLineBreak c = false :=
    fun c hc => hnb c (classifyLine_text_subset l c hc)
  have hn : '\n' ∉ (classifyLine l).text := not_mem_newline htext
  rcases classifyLine_kinds l with hk | hk | hk | hk | hk | hk | hk | hk
  · have ht := classifyLine_blank_text hk
    have hrec : reconstructLine (classifyLine l) = [] := by
      simp [reconstructLine, hk, ht]
    rw [hrec, hk]
    decide
  · have hrec : reconstructLine (classifyLine l) = '#' :: ' ' :: (classifyLine l).text := by
      simp [reconstructLine, hk]
    rw [hrec, hk]
    exact classify_h1_marker _ hn
  · have hrec : reconstructLine (classifyLine l) =
        '#' :: '#' :: ' ' :: (classifyLine l).text := by
      simp [reconstructLine, hk]
    rw [hrec, hk]
    exact classify_h2_marker _ hn
  · have hrec : reconstructLine (classifyLine l) =
        '#' :: '#' :: '#' :: ' ' :: (classifyLine l).text := by
      simp [reconstructLine, hk]
    rw [hrec, hk]
    exact classify_h3_marker _ hn
  · have hrec : reconstructLine (classifyLine l) =
        List.replicate (2 * (classifyLine l).level) ' ' ++
          ('-' :: ' ' :: '[' :: (if (classifyLine l).checked then 'x' else ' ') ::
            ']' :: ' ' :: (classifyLine l).text) := by
      simp [reconstructLine, hk]
    rw [hrec, hk]
    exact classify_checkbox_marker _ _ _ hn (by cases (classifyLine l).checked <;> simp)
  · have hrec : reconstructLine (classifyLine l) =
        List.replicate (2 * (classifyLine l).level) ' ' ++
          ('-' :: ' ' :: (classifyLine l).text) := by
      simp [reconstructLine, hk]
    have hcbf := hcb hk
    rw [hrec] at hcbf
    rw [hrec, hk]
    exact classify_bullet_marker _ _ hn hcbf
  · have hpre := classifyLine_footer_marker hk
    have hrec : reconstructLine (classifyLine l) = (classifyLine l).text := by
      simp [reconstructLine, hk]
    rw [hrec, hk]
    exact classify_footer_text _ hn hpre
  · have hrec : reconstructLine (classifyLine l) = (classifyLine l).text := by
      simp [reconstructLine, hk]
    rw [hrec, hk]
    exact hp hk

/-- C9, counterexample: for the input `" # x"` (a leading space before the
heading marker) the parser yields a paragraph with text `"# x"`; re-parsing
the reconstructed text reclassifies that line as heading-1, so the kind
sequences differ. -/
theorem c9_counterexample :
    (parseLines (reconstructText (parse_markdown " # x"))).map Block.kind ≠
      (parse_markdown " # x").map Block.kind := by decide

/-- C9 (amended): re-parsing the reconstructed text yields the same kind
sequence, provided (as the counterexample forces) that every paragraph
block's text still classifies as a paragraph and that no bullet block's
reconstructed line matches the checkbox pattern. -/
theorem c9_reparse_kinds (s : String)
    (hp : ∀ b ∈ parse_markdown s, b.kind = "p" → (classifyLine b.text).kind = "p")
    (hcb : ∀ b ∈ parse_markdown s, b.kind = "bullet" →
      checkboxMatch (reconstructLine b) = false) :
    (parseLines (reconstructText (parse_markdown s))).map Block.kind =
      (parse_markdown s).map Block.kind := by
  unfold parse_markdown at *
  unfold parseLines at *
  have hlb : ∀ l ∈ splitlines s.data, ∀ c ∈ l, isLineBreak c = false :=
    fun l hl => splitlines_mem_nobreak hl
  rw [reconstructText]
  have hmap : List.map (fun b => reconstructLine b ++ ['\n'])
      (List.map classifyLine (splitlines s.data)) =
      ((splitlines s.data).map (fun l => reconstructLine (classifyLine l))).map
        (fun l => l ++ ['\n']) := by
    rw [List.map_map, List.map_map]
    rfl
  rw [hmap, splitlines_flatten_map _ ?nb]
  case nb =>
    intro l' hl' c hc
    obtain ⟨l, hl, rfl⟩ := List.mem_map.mp hl'
    exact reconstructLine_nobreak (classifyLine l)
      (fun c2 hc2 => hlb l hl c2 (classifyLine_text_subset l c2 hc2)) c hc
  rw [List.map_map, List.map_map, List.map_map]
  refine List.map_congr_left ?_
  intro l hl
  simp only [Function.comp_apply]
  refine classify_reconstruct_kind l (hlb l hl) ?_ ?_
  · exact hp (classifyLine l) (List.mem_map_of_mem classifyLine hl)
  · exact hcb (classifyLine l) (List.mem_map_of_mem classifyLine hl)

/-- C9, witness: on the input `"# T\n- a\nhello"` both guards hold and the
kind sequence survives the reconstruction round-trip. -/
theorem c9_witness :
    (parseLines (reconstructText (parse_markdown "# T\n- a\nhello"))).map Block.kind =
      (parse_markdown "# T\n- a\nhello").map Block.kind :=
  c9_reparse_kinds "# T\n- a\nhello" (by decide) (by decide)

example : parse_markdown "" = [] := by decide
example : parse_markdown "a\n" = [{ kind := "p", text := ['a'] }] := by decide
example : parse_markdown "# T\n" = [{ kind := "h1", text := ['T'] }] := by decide
example : parse_markdown "- [x] a" =
    [{ kind := "checkbox", text := ['a'], level := 0, checked := true }] := by decide
example : parse_markdown "  - n" =
    [{ kind := "bullet", text := ['n'], level := 1 }] := by decide
example : parse_markdown "---" = [{ kind := "blank", text := [] }] := by decide
example : parse_markdown "a\n\nb" =
    [{ kind := "p", text := ['a'] }, { kind := "blank", text := [] },
     { kind := "p", text := ['b'] }] := by decide
example : markdown_to_google_doc_requests "# Title\n" =
    (['T','i','t','l','e','\n'],
     [Request.insertText 1 ['T','i','t','l','e','\n'],
      Request.updateParagraphStyle 1 7 (some "HEADING_1") none]) := by decide
example : markdown_to_google_doc_requests "" =
    ([], [Request.insertText 1 []]) := by decide
example : mentionFinditer "Ping @alice and @bob_2 ok".data 0 = [(5, 11), (16, 22)] := by decide
example : (markdown_to_google_doc_requests "  - n\n").2 =
    [Request.insertText 1 ['n','\n'],
     Request.createParagraphBullets 1 3 "BULLET_DISC_CIRCLE_SQUARE",
     Request.updateParagraphStyle 1 3 none (some 18)] := by decide
